import Mathlib

/-!
Verification of the mcstats statistics generator
(`src/generate_stats_with_password.py`) against its natural-language
specification.

The script is a linear batch job: read per-player JSON statistics
documents, classify each player record as genuine or bot with the
`is_bot` scoring heuristic, sort the genuine records by play ticks and
truncate to `TOP_LIMIT`, aggregate server-wide totals with
`calculate_aggregates`, and render an HTML template by a chain of
string replacements.

This file shallowly embeds those parts of the script that the claims
touch:

* JSON values are modelled by the inductive `JVal` (JSON reals are not
  modelled; all counters in the consumed documents are integers).
* Python `int(v)` coercion is modelled by `pyInt : JVal → Option Int`,
  where `none` models a raised `ValueError`/`TypeError`.  String
  coercion accepts an optionally signed digit string surrounded by
  whitespace (Python's underscore digit separators are not modelled).
* Python `d.get(k, default)` on a possibly-non-dict value is modelled
  by `pyGet`, where `none` models the `AttributeError` raised when the
  receiver is not a dict.
* Fallible stages return `Option`: a `none` from `extractPlayer` or
  `processPlayers` models an uncaught exception terminating the run.
* Python `//` and `%` on integers are floor division and floor
  modulus, modelled by `Int.fdiv` and `Int.fmod`.
* Python `str.lower` is modelled on ASCII letters (`Char.toLower`);
  the classifier's patterns are all ASCII.
* `f"{n:,}".replace(",", ".")` is modelled by `groupThousands`.
* `f"{x:,.0f}"` of the km quotient rounds half to even; `roundedKm`
  computes that rounding exactly over `Int` (exact for totals below
  2^53 centimeters, where the IEEE double quotient introduces no
  integer-boundary error); a negative quotient in (-0.5, 0] would
  display as "-0" in Python and as "0" here (movement counters are
  never negative in real documents).
-/

/-- JSON values as produced by `json.load`. -/
inductive JVal where
  | jnum : Int → JVal
  | jstr : String → JVal
  | jbool : Bool → JVal
  | jnull : JVal
  | jarr : List JVal → JVal
  | jobj : List (String × JVal) → JVal

/-- Whitespace stripped by Python `int(str)`. -/
def isWs (c : Char) : Bool :=
  c == ' ' || c == '\t' || c == '\n' || c == '\r'

/-- Strip leading and trailing whitespace. -/
def trimWs (l : List Char) : List Char :=
  ((l.dropWhile isWs).reverse.dropWhile isWs).reverse

/-- Value of a nonempty all-digit character list, else `none`. -/
def digitsVal (l : List Char) : Option Nat :=
  match l with
  | [] => none
  | ds => if ds.all Char.isDigit
          then some (ds.foldl (fun a c => a * 10 + (c.toNat - 48)) 0)
          else none

/-- Python `int(s)` for a string: optional sign, digits, surrounding
whitespace. -/
def pyIntStr (l : List Char) : Option Int :=
  match trimWs l with
  | '+' :: ds => (digitsVal ds).map (fun n => (n : Int))
  | '-' :: ds => (digitsVal ds).map (fun n => -(n : Int))
  | ds => (digitsVal ds).map (fun n => (n : Int))

/-- Python `int(v)` on a JSON value; `none` models a raised error. -/
def pyInt : JVal → Option Int
  | .jnum n => some n
  | .jbool b => some (if b then 1 else 0)
  | .jstr s => pyIntStr s.data
  | .jnull => none
  | .jarr _ => none
  | .jobj _ => none

/-- Coerce every value of an association list, or fail. -/
def intsOf : List (String × JVal) → Option (List Int)
  | [] => some []
  | kv :: rest =>
    match pyInt kv.2, intsOf rest with
    | some n, some ns => some (n :: ns)
    | _, _ => none

/-- Source `sum_values(d)`: `try: return sum(int(v) for v in d.values())
except: return 0`.  A non-dict argument raises inside the `try` and
yields 0; a single non-coercible value likewise yields 0. -/
def sum_values (d : JVal) : Int :=
  match d with
  | .jobj kvs =>
    match intsOf kvs with
    | some ns => ns.sum
    | none => 0
  | _ => 0

/-- One extracted player record (the dict appended to `players`,
minus the `advancements` field which no claim touches). -/
structure Player where
  uuid : String
  name : String
  total_blocks : Int
  total_killed : Int
  deaths : Int
  jumps : Int
  ticks : Int
  time_txt : String
  extras : List (String × JVal)

/-- Source `ticks_to_time`: Python `//` and `%` are floor division and
floor modulus. -/
def ticks_to_time (ticks : Int) : String :=
  let seconds := ticks.fdiv 20
  let hours := seconds.fdiv 3600
  let minutes := (seconds.fmod 3600).fdiv 60
  toString hours ++ "h " ++ toString minutes ++ "m"

/-- Does `pat` occur at the head of `l`?  (`re.match` of a literal
pattern.) -/
def begins : List Char → List Char → Bool
  | [], _ => true
  | _ :: _, [] => false
  | a :: as, b :: bs => a == b && begins as bs

/-- The lower-cased name, as `name.lower()` (ASCII letters). -/
def lowerName (p : Player) : List Char :=
  p.name.data.map Char.toLower

/-- The `obvious_bots` pattern list: `^bot[_-]`, `^test[_-]`,
`^npc[_-]`, `^dummy`, `^fake`, matched against the lower-cased name. -/
def matchesObviousBot (l : List Char) : Bool :=
  begins "bot_".data l || begins "bot-".data l ||
  begins "test_".data l || begins "test-".data l ||
  begins "npc_".data l || begins "npc-".data l ||
  begins "dummy".data l || begins "fake".data l

/-- The pattern `^[0-9a-f]{32}$` on the raw (not lower-cased) name. -/
def isHex32 (s : String) : Bool :=
  s.data.length == 32 &&
  s.data.all (fun c => c.isDigit || ('a' ≤ c && c ≤ 'f'))

/-- Source `is_bot(p)`: accumulate the four signal weights, then
compare the score against the hard-coded threshold 12 (inclusive). -/
def is_bot (p : Player) : Bool :=
  let score : Int := 0
  let score := if p.ticks < 1200 then score + 5 else score
  let score := if matchesObviousBot (lowerName p) then score + 10 else score
  let score := if 1200 < p.ticks ∧ p.total_blocks = 0 ∧ p.total_killed = 0 ∧ p.jumps = 0
               then score + 8 else score
  let score := if isHex32 p.name then score + 3 else score
  decide (12 ≤ score)

/-- Weight contributed by the low-play-time signal (`ticks < 1200`). -/
def lowTickSignal (p : Player) : Int :=
  if p.ticks < 1200 then 5 else 0

/-- Weight contributed by the suspicious-name signal (applied once
even when several patterns match, as the source loop breaks). -/
def nameSignal (p : Player) : Int :=
  if matchesObviousBot (lowerName p) then 10 else 0

/-- Weight contributed by the zero-activity signal. -/
def zeroActivitySignal (p : Player) : Int :=
  if 1200 < p.ticks ∧ p.total_blocks = 0 ∧ p.total_killed = 0 ∧ p.jumps = 0
  then 8 else 0

/-- Weight contributed by the raw-hex-name signal. -/
def hexNameSignal (p : Player) : Int :=
  if isHex32 p.name then 3 else 0

/-- The accumulated suspicion score of a record. -/
def botScore (p : Player) : Int :=
  lowTickSignal p + nameSignal p + zeroActivitySignal p + hexNameSignal p

theorem is_bot_eq_score (p : Player) :
    is_bot p = decide (12 ≤ botScore p) := by
  unfold is_bot botScore lowTickSignal nameSignal zeroActivitySignal hexNameSignal
  split_ifs <;> rfl

/-- C1: a record is classified as bot iff its accumulated suspicion
score reaches the threshold 12, the comparison being inclusive;
otherwise it is genuine. -/
theorem bot_iff_score_ge_threshold (p : Player) :
    is_bot p = true ↔ 12 ≤ botScore p := by
  rw [is_bot_eq_score]
  exact decide_eq_true_iff

/-- C10 helper: if every value coerces, `intsOf` succeeds with the
pointwise coercions. -/
theorem intsOf_eq_some_of_all (kvs : List (String × JVal))
    (h : ∀ kv ∈ kvs, (pyInt kv.2).isSome = true) :
    intsOf kvs = some (kvs.map (fun kv => (pyInt kv.2).getD 0)) := by
  induction kvs with
  | nil => rfl
  | cons kv rest ih =>
    have hkv := h kv (List.mem_cons_self kv rest)
    have hrest := ih (fun x hx => h x (List.mem_cons_of_mem kv hx))
    cases hpy : pyInt kv.2 with
    | none => rw [hpy] at hkv; simp [Option.isSome] at hkv
    | some n =>
      simp only [intsOf, hpy, hrest, List.map_cons, Option.getD_some]

/-- C10 helper: a single non-coercible value makes `intsOf` fail. -/
theorem intsOf_eq_none_of_bad (kvs : List (String × JVal))
    (kv : String × JVal) (hmem : kv ∈ kvs) (hbad : pyInt kv.2 = none) :
    intsOf kvs = none := by
  induction kvs with
  | nil => cases hmem
  | cons hd rest ih =>
    rcases List.mem_cons.mp hmem with heq | htl
    · subst heq
      simp only [intsOf, hbad]
    · simp only [intsOf]
      rw [ih htl]
      cases pyInt hd.2 <;> rfl

/-- C10: `sum_values` returns 0 for the whole category as soon as one
value fails integer coercion — every valid value's contribution is
discarded with the bad one — and returns the exact integer sum when
every value coerces. -/
theorem sum_values_all_or_nothing (kvs : List (String × JVal)) :
    ((∃ kv ∈ kvs, pyInt kv.2 = none) → sum_values (.jobj kvs) = 0) ∧
    ((∀ kv ∈ kvs, (pyInt kv.2).isSome = true) →
      sum_values (.jobj kvs) = (kvs.map (fun kv => (pyInt kv.2).getD 0)).sum) := by
  constructor
  · rintro ⟨kv, hmem, hbad⟩
    simp only [sum_values, intsOf_eq_none_of_bad kvs kv hmem hbad]
  · intro h
    simp only [sum_values, intsOf_eq_some_of_all kvs h]

/-- C10 witness list with one non-coercible value among valid ones. -/
def mixedKvs : List (String × JVal) :=
  [("minecraft:stone", .jnum 7), ("minecraft:dirt", .jstr "lots"),
   ("minecraft:sand", .jnum 5)]

/-- C10 witness list whose values all coerce. -/
def goodKvs : List (String × JVal) :=
  [("minecraft:stone", .jnum 7), ("minecraft:dirt", .jstr "2"),
   ("minecraft:sand", .jbool true)]

theorem sum_values_all_or_nothing_witness :
    sum_values (.jobj mixedKvs) = 0 ∧ sum_values (.jobj goodKvs) = 10 := by
  constructor
  · exact (sum_values_all_or_nothing mixedKvs).1
      ⟨("minecraft:dirt", .jstr "lots"),
       List.mem_cons_of_mem _ (List.mem_cons_self _ _), by decide⟩
  · have h := (sum_values_all_or_nothing goodKvs).2 (by decide)
    rw [h]
    decide

/-- C2 counterexample record: name "botx" matches the spec's pattern
`^bot` but not the source's `^bot[_-]`; 2400 ticks, zero activity. -/
def botxPlayer : Player :=
  { uuid := "botx", name := "botx", total_blocks := 0, total_killed := 0,
    deaths := 0, jumps := 0, ticks := 2400, time_txt := "0h 2m", extras := [] }

/-- C2 counterexample: a record with play time 2400 ticks, zero
blocks, kills and jumps, and a display name matching `^bot` ("botx")
is classified genuine, because the source's name pattern is
`^bot[_-]`, so only the zero-activity signal (8) fires and 8 < 12. -/
theorem botx_zero_activity_is_genuine :
    begins "bot".data "botx".data = true ∧ is_bot botxPlayer = false := by
  constructor <;> decide

/-- C2 (amended): with play time 2400 ticks, zero blocks, kills and
jumps, and a display name matching one of the classifier's configured
patterns (`^bot[_-]`, `^test[_-]`, `^npc[_-]`, `^dummy`, `^fake`), the
record is classified bot: the name signal (10) and the zero-activity
signal (8) alone reach 18 ≥ 12, the low-ticks signal contributing 0 at
2400 ticks. -/
theorem named_zero_activity_is_bot (p : Player)
    (hticks : p.ticks = 2400) (hblocks : p.total_blocks = 0)
    (hkills : p.total_killed = 0) (hjumps : p.jumps = 0)
    (hname : matchesObviousBot (lowerName p) = true) :
    is_bot p = true ∧
    12 ≤ lowTickSignal p + zeroActivitySignal p + nameSignal p := by
  have hlow : lowTickSignal p = 0 := by
    simp [lowTickSignal, hticks]
  have hzero : zeroActivitySignal p = 8 := by
    simp [zeroActivitySignal, hticks, hblocks, hkills, hjumps]
  have hnm : nameSignal p = 10 := by
    simp [nameSignal, hname]
  have hhex : 0 ≤ hexNameSignal p := by
    unfold hexNameSignal
    split_ifs <;> omega
  constructor
  · rw [is_bot_eq_score, decide_eq_true_iff]
    unfold botScore
    omega
  · omega

/-- C2 witness record: name "bot_1" (matches `^bot[_-]`), 2400 ticks,
zero activity. -/
def botUnderscorePlayer : Player :=
  { uuid := "abc123", name := "bot_1", total_blocks := 0, total_killed := 0,
    deaths := 0, jumps := 0, ticks := 2400, time_txt := "0h 2m", extras := [] }

theorem named_zero_activity_is_bot_witness :
    is_bot botUnderscorePlayer = true ∧
    12 ≤ lowTickSignal botUnderscorePlayer +
      zeroActivitySignal botUnderscorePlayer + nameSignal botUnderscorePlayer :=
  named_zero_activity_is_bot botUnderscorePlayer rfl rfl rfl rfl (by decide)

/-- The classification loop: `for p in players: if is_bot(p):
bots.append(p) else: real.append(p)`.  Result `(real, bots)`. -/
def classifyPlayers (ps : List Player) : List Player × List Player :=
  ps.foldl
    (fun acc p => if is_bot p then (acc.1, acc.2 ++ [p]) else (acc.1 ++ [p], acc.2))
    ([], [])

theorem classifyPlayers_loop_eq (ps : List Player) :
    ∀ acc : List Player × List Player,
      ps.foldl
        (fun acc p => if is_bot p then (acc.1, acc.2 ++ [p]) else (acc.1 ++ [p], acc.2))
        acc
      = (acc.1 ++ ps.filter (fun p => !is_bot p), acc.2 ++ ps.filter (fun p => is_bot p)) := by
  induction ps with
  | nil => intro acc; simp
  | cons p rest ih =>
    intro acc
    simp only [List.foldl_cons, List.filter_cons]
    cases hbot : is_bot p with
    | true =>
      rw [if_pos rfl, ih]
      simp
    | false =>
      rw [if_neg (by simp), ih]
      simp

theorem classifyPlayers_eq_filter (ps : List Player) :
    classifyPlayers ps =
      (ps.filter (fun p => !is_bot p), ps.filter (fun p => is_bot p)) := by
  unfold classifyPlayers
  rw [classifyPlayers_loop_eq]
  simp

theorem length_filter_not_add_length_filter (ps : List Player) :
    (ps.filter (fun p => !is_bot p)).length
      + (ps.filter (fun p => is_bot p)).length = ps.length := by
  induction ps with
  | nil => rfl
  | cons p rest ih =>
    simp only [List.filter_cons]
    cases hbot : is_bot p <;> simp <;> omega

/-- C3: the classification loop partitions the input records into the
genuine list and the bot list: every record lands in at least one of
the two, never in both, and the two lists together have exactly the
input's length. -/
theorem classification_is_partition (ps : List Player) :
    (∀ p, p ∈ ps ↔ (p ∈ (classifyPlayers ps).1 ∨ p ∈ (classifyPlayers ps).2)) ∧
    (∀ p, ¬(p ∈ (classifyPlayers ps).1 ∧ p ∈ (classifyPlayers ps).2)) ∧
    (classifyPlayers ps).1.length + (classifyPlayers ps).2.length = ps.length := by
  rw [classifyPlayers_eq_filter]
  refine ⟨?_, ?_, ?_⟩
  · intro p
    constructor
    · intro hmem
      cases hbot : is_bot p with
      | true => exact Or.inr (List.mem_filter.mpr ⟨hmem, by simp [hbot]⟩)
      | false => exact Or.inl (List.mem_filter.mpr ⟨hmem, by simp [hbot]⟩)
    · rintro (hmem | hmem) <;> exact (List.mem_filter.mp hmem).1
  · rintro p ⟨hreal, hbots⟩
    have h1 := (List.mem_filter.mp hreal).2
    have h2 := (List.mem_filter.mp hbots).2
    simp at h1 h2
    rw [h1] at h2
    cases h2
  · exact length_filter_not_add_length_filter ps

/-- Source `TOP_LIMIT = 100`. -/
def TOP_LIMIT : Nat := 100

/-- Descending-ticks order used by `real.sort(key=..., reverse=True)`. -/
def ticksGe (a b : Player) : Prop := b.ticks ≤ a.ticks

/-- Stable insertion for descending ticks: a new element goes after
every already-placed element with ticks ≥ its own, so elements with
equal ticks keep their input order, exactly as Python's stable sort. -/
def insertDesc (p : Player) : List Player → List Player
  | [] => [p]
  | q :: qs => if p.ticks ≤ q.ticks then q :: insertDesc p qs else p :: q :: qs

/-- `real.sort(key=lambda x: x["ticks"], reverse=True)` — Python's
stable sort, modelled as stable insertion sort processing the list in
input order. -/
def sortTicksDesc (ps : List Player) : List Player :=
  ps.foldl (fun acc p => insertDesc p acc) []

/-- `real = real[:TOP_LIMIT]` after the sort. -/
def leaderboard (ps : List Player) : List Player :=
  (sortTicksDesc ps).take TOP_LIMIT

theorem insertDesc_perm (p : Player) (l : List Player) :
    (insertDesc p l).Perm (p :: l) := by
  induction l with
  | nil => exact List.Perm.refl _
  | cons q qs ih =>
    unfold insertDesc
    split_ifs
    · exact (ih.cons q).trans (List.Perm.swap p q qs)
    · exact List.Perm.refl _

theorem insertDesc_pairwise (p : Player) (l : List Player)
    (h : l.Pairwise ticksGe) : (insertDesc p l).Pairwise ticksGe := by
  induction l with
  | nil => simp [insertDesc, List.pairwise_cons]
  | cons q qs ih =>
    rcases List.pairwise_cons.mp h with ⟨hq, hqs⟩
    unfold insertDesc
    split_ifs with hle
    · refine List.pairwise_cons.mpr ⟨?_, ih hqs⟩
      intro x hx
      rcases List.mem_cons.mp ((insertDesc_perm p qs).mem_iff.mp hx) with hxp | hxqs
      · subst hxp; exact hle
      · exact hq x hxqs
    · refine List.pairwise_cons.mpr ⟨?_, h⟩
      intro x hx
      rcases List.mem_cons.mp hx with hxq | hxqs
      · subst hxq; exact le_of_not_le hle
      · exact (hq x hxqs).trans (le_of_not_le hle)

theorem sortTicksDesc_loop_perm (ps : List Player) :
    ∀ acc, (ps.foldl (fun acc p => insertDesc p acc) acc).Perm (ps ++ acc) := by
  induction ps with
  | nil => intro acc; simp
  | cons p rest ih =>
    intro acc
    simp only [List.foldl_cons, List.cons_append]
    have h1 := ih (insertDesc p acc)
    have h2 : (rest ++ insertDesc p acc).Perm (rest ++ (p :: acc)) :=
      List.Perm.append_left rest (insertDesc_perm p acc)
    have h3 : (rest ++ (p :: acc)).Perm (p :: (rest ++ acc)) := List.perm_middle
    exact (h1.trans h2).trans h3

theorem sortTicksDesc_perm (ps : List Player) : (sortTicksDesc ps).Perm ps := by
  have h := sortTicksDesc_loop_perm ps []
  simpa [sortTicksDesc] using h

theorem sortTicksDesc_loop_pairwise (ps : List Player) :
    ∀ acc, acc.Pairwise ticksGe →
      (ps.foldl (fun acc p => insertDesc p acc) acc).Pairwise ticksGe := by
  induction ps with
  | nil => intro acc hacc; simpa using hacc
  | cons p rest ih =>
    intro acc hacc
    simp only [List.foldl_cons]
    exact ih _ (insertDesc_pairwise p acc hacc)

theorem sortTicksDesc_pairwise (ps : List Player) :
    (sortTicksDesc ps).Pairwise ticksGe :=
  sortTicksDesc_loop_pairwise ps [] List.Pairwise.nil

/-- C4: with 150 genuine records of pairwise distinct ticks, the
truncated leaderboard (`real.sort(reverse=True); real[:100]`) that
aggregation operates on has exactly 100 records, leaderboard plus
remainder is a permutation of the input, and every leaderboard record
strictly exceeds every dropped record in ticks — i.e. the leaderboard
is exactly the 100 highest-ticks records. -/
theorem leaderboard_is_top_100 (ps : List Player)
    (hlen : ps.length = 150)
    (hdist : ps.Pairwise (fun a b => a.ticks ≠ b.ticks)) :
    (leaderboard ps).length = 100 ∧
    (leaderboard ps ++ (sortTicksDesc ps).drop TOP_LIMIT).Perm ps ∧
    (∀ p ∈ leaderboard ps, ∀ q ∈ (sortTicksDesc ps).drop TOP_LIMIT,
      q.ticks < p.ticks) := by
  have hperm := sortTicksDesc_perm ps
  have hslen : (sortTicksDesc ps).length = 150 := hperm.length_eq.trans hlen
  have hsplit : leaderboard ps ++ (sortTicksDesc ps).drop TOP_LIMIT = sortTicksDesc ps :=
    List.take_append_drop TOP_LIMIT (sortTicksDesc ps)
  refine ⟨?_, ?_, ?_⟩
  · rw [leaderboard, List.length_take, hslen]
    rfl
  · rw [hsplit]; exact hperm
  · have hsorted : (sortTicksDesc ps).Pairwise ticksGe := sortTicksDesc_pairwise ps
    have hne : (sortTicksDesc ps).Pairwise (fun a b => a.ticks ≠ b.ticks) :=
      (hperm.pairwise_iff (fun h => h.symm)).mpr hdist
    rw [← hsplit] at hsorted hne
    have hge := (List.pairwise_append.mp hsorted).2.2
    have hne2 := (List.pairwise_append.mp hne).2.2
    intro p hp q hq
    exact lt_of_le_of_ne (hge p hp q hq) (fun h => hne2 p hp q hq h.symm)

/-- A genuine-looking record whose ticks are the given rank. -/
def rankedPlayer (i : Nat) : Player :=
  { uuid := "u", name := "player", total_blocks := 1, total_killed := 0,
    deaths := 0, jumps := 1, ticks := (i : Int), time_txt := "t", extras := [] }

/-- C4 witness pool: 150 records with pairwise distinct ticks. -/
def distinct150 : List Player :=
  (List.range 150).map rankedPlayer

theorem leaderboard_is_top_100_witness :
    (leaderboard distinct150).length = 100 ∧
    (leaderboard distinct150 ++ (sortTicksDesc distinct150).drop TOP_LIMIT).Perm distinct150 ∧
    (∀ p ∈ leaderboard distinct150,
      ∀ q ∈ (sortTicksDesc distinct150).drop TOP_LIMIT, q.ticks < p.ticks) :=
  leaderboard_is_top_100 distinct150
    (by rw [distinct150, List.length_map, List.length_range])
    (by
      rw [distinct150, List.pairwise_map]
      refine List.Pairwise.imp ?_ (List.pairwise_lt_range 150)
      intro i j hij
      simp only [rankedPlayer, ne_eq]
      omega)

/-- Python `d.get(k, default)`: `none` models the `AttributeError`
raised when `d` is not a dict. -/
def pyGet (d : JVal) (k : String) (dflt : JVal) : Option JVal :=
  match d with
  | .jobj kvs => some (((kvs.find? (fun kv => kv.1 == k)).map Prod.snd).getD dflt)
  | _ => none

/-- Python truthiness of a JSON value. -/
def isFalsy : JVal → Bool
  | .jnum n => n == 0
  | .jstr s => s.isEmpty
  | .jbool b => !b
  | .jnull => true
  | .jarr l => l.isEmpty
  | .jobj l => l.isEmpty

/-- Python `v or default`. -/
def pyOr (v : JVal) (dflt : JVal) : JVal :=
  if isFalsy v then dflt else v

/-- The eight movement extra-counters summed for total distance. -/
def eightKeys : List String :=
  ["minecraft:walk_one_cm", "minecraft:sprint_one_cm", "minecraft:fly_one_cm",
   "minecraft:swim_one_cm", "minecraft:aviate_one_cm", "minecraft:boat_one_cm",
   "minecraft:minecart_one_cm", "minecraft:horse_one_cm"]

/-- `p["extras"].get(key, 0)`: `extras` is always a dict, so this
never raises. -/
def extraVal (p : Player) (k : String) : JVal :=
  ((p.extras.find? (fun kv => kv.1 == k)).map Prod.snd).getD (.jnum 0)

/-- The inner distance loop for one record:
`for key in [...]: total_distance += int(p["extras"].get(key, 0))`.
`none` models an uncaught coercion error. -/
def playerDist (p : Player) : Option Int :=
  eightKeys.foldl
    (fun acc k =>
      match acc, pyInt (extraVal p k) with
      | some a, some b => some (a + b)
      | _, _ => none)
    (some 0)

/-- The outer distance loop over all aggregated records. -/
def distSum (lst : List Player) : Option Int :=
  lst.foldl
    (fun acc p =>
      match acc, playerDist p with
      | some a, some b => some (a + b)
      | _, _ => none)
    (some 0)

/-- Insert a separator after every third character (used on the
reversed digit list, giving Python's `{:,}` grouping with the source's
`.replace(",", ".")` applied). -/
def insertDots : List Char → List Char
  | [] => []
  | [a] => [a]
  | [a, b] => [a, b]
  | [a, b, c] => [a, b, c]
  | a :: b :: c :: d :: rest => a :: b :: c :: '.' :: insertDots (d :: rest)

/-- `f"{n:,}".replace(",", ".")`. -/
def groupThousands (n : Int) : String :=
  (if n < 0 then "-" else "") ++ String.mk ((insertDots (Nat.toDigits 10 n.natAbs).reverse).reverse)

/-- `f"{cm/100000:,.0f}"` as an integer: floor quotient and remainder
of the centimeter total by 100000, then round half to even exactly as
IEEE float formatting does. -/
def roundedKm (cm : Int) : Int :=
  if 2 * cm.fmod 100000 < 100000 then cm.fdiv 100000
  else if 100000 < 2 * cm.fmod 100000 then cm.fdiv 100000 + 1
  else if (cm.fdiv 100000).fmod 2 = 0 then cm.fdiv 100000
  else cm.fdiv 100000 + 1

/-- The dict returned by `calculate_aggregates`. -/
structure Aggregates where
  total_time : String
  total_blocks : String
  total_kills : String
  total_deaths : String
  total_distance : String
  player_count : Nat
  avg_time : String
deriving DecidableEq

/-- Source `calculate_aggregates(lst)`.  `none` models an uncaught
coercion error in the distance loop. -/
def calculate_aggregates (lst : List Player) : Option Aggregates :=
  if lst.isEmpty then
    some { total_time := "0h 0m", total_blocks := "0", total_kills := "0",
           total_deaths := "0", total_distance := "0", player_count := 0,
           avg_time := "0h 0m" }
  else
    match distSum lst with
    | none => none
    | some td =>
      let total_time := (lst.map Player.ticks).sum
      some { total_time := ticks_to_time total_time,
             total_blocks := groupThousands (lst.map Player.total_blocks).sum,
             total_kills := groupThousands (lst.map Player.total_killed).sum,
             total_deaths := groupThousands (lst.map Player.deaths).sum,
             total_distance := groupThousands (roundedKm td),
             player_count := lst.length,
             avg_time := ticks_to_time (total_time.fdiv (lst.length : Int)) }

/-- C6: aggregating an empty record list returns the defined all-zero
result (no division-by-zero is possible: the empty case returns before
the average is computed). -/
theorem aggregate_empty_is_zero :
    calculate_aggregates [] =
      some { total_time := "0h 0m", total_blocks := "0", total_kills := "0",
             total_deaths := "0", total_distance := "0", player_count := 0,
             avg_time := "0h 0m" } := rfl

theorem roundedKm_nearest (cm : Int) :
    |(roundedKm cm : ℚ) - (cm : ℚ) / 100000| ≤ 1 / 2 := by
  have hdiv := Int.fmod_add_fdiv cm 100000
  have hr0 : (0 : Int) ≤ cm.fmod 100000 := Int.fmod_nonneg' cm (by norm_num)
  have hr1 : cm.fmod 100000 < 100000 := Int.fmod_lt_of_pos cm (by norm_num)
  have hcm : (cm : ℚ) = (cm.fmod 100000 : ℚ) + 100000 * (cm.fdiv 100000 : ℚ) := by
    exact_mod_cast hdiv.symm
  have hr0Q : (0 : ℚ) ≤ (cm.fmod 100000 : ℚ) := by exact_mod_cast hr0
  have hr1Q : (cm.fmod 100000 : ℚ) < 100000 := by exact_mod_cast hr1
  unfold roundedKm
  split_ifs with h1 h2 h3
  · have h1Q : 2 * (cm.fmod 100000 : ℚ) < 100000 := by exact_mod_cast h1
    rw [abs_sub_le_iff]
    constructor <;> (rw [hcm]; linarith)
  · have h2Q : (100000 : ℚ) < 2 * (cm.fmod 100000 : ℚ) := by exact_mod_cast h2
    rw [abs_sub_le_iff]
    constructor <;> (rw [hcm]; push_cast; linarith)
  · have htie : 2 * (cm.fmod 100000 : ℚ) = 100000 := by
      have : 2 * cm.fmod 100000 = 100000 := by omega
      exact_mod_cast this
    rw [abs_sub_le_iff]
    constructor <;> (rw [hcm]; linarith)
  · have htie : 2 * (cm.fmod 100000 : ℚ) = 100000 := by
      have : 2 * cm.fmod 100000 = 100000 := by omega
      exact_mod_cast this
    rw [abs_sub_le_iff]
    constructor <;> (rw [hcm]; push_cast; linarith)

/-- C5 single-player instance: `walk_one_cm = 100000`, all other
movement counters absent (0). -/
def walkPlayer : Player :=
  { uuid := "w", name := "steve", total_blocks := 0, total_killed := 0,
    deaths := 0, jumps := 0, ticks := 24000, time_txt := "0h 20m",
    extras := [("minecraft:walk_one_cm", .jnum 100000)] }

/-- C5: the aggregate's total distance renders the sum of the eight
named movement counters over all input records (`distSum`), divided by
100,000 and rounded to a nearest whole kilometer (half-even ties, as
float formatting rounds); in particular the single player with
`walk_one_cm = 100000` and no other movement yields "1". -/
theorem total_distance_rounded_km (lst : List Player) (td : Int) (agg : Aggregates)
    (hd : distSum lst = some td) (ha : calculate_aggregates lst = some agg)
    (hne : lst.isEmpty = false) :
    (agg.total_distance = groupThousands (roundedKm td) ∧
      |(roundedKm td : ℚ) - (td : ℚ) / 100000| ≤ 1 / 2) ∧
    (calculate_aggregates [walkPlayer]).map Aggregates.total_distance = some "1" := by
  refine ⟨⟨?_, roundedKm_nearest td⟩, by decide⟩
  rw [calculate_aggregates, if_neg (by simp [hne]), hd] at ha
  cases ha
  rfl

theorem total_distance_rounded_km_witness :
    (let agg := { total_time := "0h 20m", total_blocks := "0", total_kills := "0",
                  total_deaths := "0", total_distance := "1", player_count := 1,
                  avg_time := "0h 20m" : Aggregates }
     (agg.total_distance = groupThousands (roundedKm 100000) ∧
       |(roundedKm 100000 : ℚ) - (100000 : ℚ) / 100000| ≤ 1 / 2) ∧
     (calculate_aggregates [walkPlayer]).map Aggregates.total_distance = some "1") :=
  total_distance_rounded_km [walkPlayer] 100000 _ (by decide) (by decide) (by decide)

/-- `uuid.replace("-", "")`. -/
def normalizeId (s : String) : String :=
  String.mk (s.data.filter (fun c => !(c == '-')))

/-- `fname[:-5]`: drop the ".json" suffix. -/
def stripDotJson (s : String) : String :=
  String.mk (s.data.take (s.data.length - 5))

/-- `uuid_to_name.get(uuid.replace("-", ""), uuid)` (via `dict.get`
with the uuid itself as fallback, as the source's `.get(..., uuid)`). -/
def resolveName (cache : List (String × String)) (uuid : String) : String :=
  ((cache.find? (fun kv => kv.1 == normalizeId uuid)).map Prod.snd).getD uuid

/-- The `extras` dict: every `minecraft:custom` entry not promoted to
a named field. -/
def extrasOf (custom : JVal) : List (String × JVal) :=
  match custom with
  | .jobj kvs => kvs.filter (fun kv =>
      !(kv.1 == "minecraft:deaths") && !(kv.1 == "minecraft:jump") &&
      !(kv.1 == "minecraft:play_time"))
  | _ => []

/-- The per-player extraction body (source lines 209–250, minus the
advancement side file): field coercions happen OUTSIDE any
try/except, so `none` here models an uncaught exception that kills the
whole run. -/
def extractPlayer (uuid nm : String) (doc : JVal) : Option Player :=
  (pyGet doc "stats" (.jobj [])).bind fun s =>
  (pyGet s "minecraft:mined" (.jobj [])).bind fun minedR =>
  (pyGet s "minecraft:killed" (.jobj [])).bind fun killedR =>
  (pyGet s "minecraft:custom" (.jobj [])).bind fun customR =>
  (pyGet (pyOr customR (.jobj [])) "minecraft:mob_kills" (.jnum 0)).bind fun mkRaw =>
  (pyInt mkRaw).bind fun mkInt =>
  (pyGet (pyOr customR (.jobj [])) "minecraft:deaths" (.jnum 0)).bind fun deathsRaw =>
  (pyInt deathsRaw).bind fun deaths =>
  (pyGet (pyOr customR (.jobj [])) "minecraft:jump" (.jnum 0)).bind fun jumpsRaw =>
  (pyInt jumpsRaw).bind fun jumps =>
  (pyGet (pyOr customR (.jobj [])) "minecraft:play_time" (.jnum 0)).bind fun ticksRaw =>
  (pyInt ticksRaw).bind fun ticks =>
  some { uuid := uuid, name := nm,
         total_blocks := sum_values (pyOr minedR (.jobj [])),
         total_killed := sum_values (pyOr killedR (.jobj [])) + mkInt,
         deaths := deaths, jumps := jumps, ticks := ticks,
         time_txt := ticks_to_time ticks,
         extras := extrasOf (pyOr customR (.jobj [])) }

/-- The extraction loop over statistics files.  A file is a name paired
with its parse result: `none` models `json.load` raising (the loop's
`except: continue` skips the player); an extraction `none` (uncaught
exception) aborts the whole run, modelled by a `none` result. -/
def processPlayers (cache : List (String × String)) :
    List (String × Option JVal) → Option (List Player)
  | [] => some []
  | (_, none) :: rest => processPlayers cache rest
  | (fname, some doc) :: rest =>
    match extractPlayer (stripDotJson fname) (resolveName cache (stripDotJson fname)) doc with
    | none => none
    | some p =>
      match processPlayers cache rest with
      | none => none
      | some ps => some (p :: ps)

/-- C7 counterexample document: parses as JSON but holds an ill-typed
`minecraft:deaths` counter, so `int(...)` raises outside any
try/except. -/
def illTypedDoc : JVal :=
  .jobj [("stats", .jobj [("minecraft:custom",
    .jobj [("minecraft:deaths", .jstr "many")])])]

/-- A well-formed document that extracts fine on its own. -/
def wellFormedDoc : JVal :=
  .jobj [("stats", .jobj [("minecraft:custom",
    .jobj [("minecraft:play_time", .jnum 2400)])])]

/-- C7 counterexample: a document with an ill-typed counter value
terminates the whole run (the following well-formed player, extractable
on its own, is lost), contradicting the claim that every per-player
parse failure is skipped. -/
theorem ill_typed_counter_kills_run :
    processPlayers [] [("a.json", some illTypedDoc), ("b.json", some wellFormedDoc)] = none ∧
    (extractPlayer "b" "b" wellFormedDoc).isSome = true := by
  constructor <;> rfl

/-- C7 (amended): a source document that fails to parse as JSON is
skipped — the run continues exactly as if the file were absent — but an
ill-typed value for the directly coerced counters (mob_kills, deaths,
jump, play_time) or a non-mapping document/stats/custom section raises
an uncaught error that terminates the run; only the mined/killed
category sums tolerate ill-typed values (degrading to 0). -/
theorem unparseable_file_is_skipped (cache : List (String × String))
    (pre post : List (String × Option JVal)) (fname : String) :
    processPlayers cache (pre ++ (fname, none) :: post) =
      processPlayers cache (pre ++ post) := by
  induction pre with
  | nil => rfl
  | cons hd tl ih =>
    obtain ⟨g, od⟩ := hd
    cases od with
    | none =>
      simpa only [List.cons_append, processPlayers] using ih
    | some doc =>
      simp only [List.cons_append, processPlayers, List.append_eq]
      cases extractPlayer (stripDotJson g) (resolveName cache (stripDotJson g)) doc with
      | none => rfl
      | some p => rw [ih]

/-- A value is harmless for non-negativity: either it does not coerce
to an integer (it can then only crash extraction or degrade a category
sum to 0) or it coerces to a non-negative one. -/
def leafOk (v : JVal) : Bool :=
  match pyInt v with
  | some n => decide (0 ≤ n)
  | none => true

/-- Every value of a dict is `leafOk`; non-dicts are harmless. -/
def dictOk : JVal → Bool
  | .jobj kvs => kvs.all (fun kv => leafOk kv.2)
  | _ => true

/-- All counter values the extractor consumes from a document are
non-negative where they coerce at all (the mined, killed and custom
sections, after the source's `or {}` defaulting). -/
def countersOk (doc : JVal) : Bool :=
  ((pyGet doc "stats" (.jobj [])).bind fun s =>
   (pyGet s "minecraft:mined" (.jobj [])).bind fun mR =>
   (pyGet s "minecraft:killed" (.jobj [])).bind fun kR =>
   (pyGet s "minecraft:custom" (.jobj [])).map fun cR =>
     dictOk (pyOr mR (.jobj [])) && dictOk (pyOr kR (.jobj [])) &&
     dictOk (pyOr cR (.jobj []))).getD true

theorem leafOk_nonneg (v : JVal) (n : Int)
    (hok : leafOk v = true) (hv : pyInt v = some n) : 0 ≤ n := by
  unfold leafOk at hok
  rw [hv] at hok
  exact of_decide_eq_true hok

theorem dictOk_leafOk (d : JVal) (k : String) (v : JVal)
    (hok : dictOk d = true) (hv : pyGet d k (.jnum 0) = some v) :
    leafOk v = true := by
  cases d with
  | jobj kvs =>
    simp only [pyGet, Option.some.injEq] at hv
    cases hf : kvs.find? (fun kv => kv.1 == k) with
    | none =>
      rw [hf] at hv
      simp only [Option.map_none', Option.getD_none] at hv
      rw [← hv]
      rfl
    | some kv =>
      rw [hf] at hv
      simp only [Option.map_some', Option.getD_some] at hv
      have hmem := List.mem_of_find?_eq_some hf
      have hall := List.all_eq_true.mp hok kv hmem
      rw [← hv]
      exact hall
  | jnum n => exact Option.noConfusion hv
  | jstr s => exact Option.noConfusion hv
  | jbool b => exact Option.noConfusion hv
  | jnull => exact Option.noConfusion hv
  | jarr l => exact Option.noConfusion hv

theorem intsOf_nonneg (kvs : List (String × JVal)) (ns : List Int)
    (hall : kvs.all (fun kv => leafOk kv.2) = true) (hints : intsOf kvs = some ns) :
    ∀ n ∈ ns, 0 ≤ n := by
  induction kvs generalizing ns with
  | nil =>
    simp only [intsOf, Option.some.injEq] at hints
    subst hints
    intro n hn
    cases hn
  | cons kv rest ih =>
    simp only [List.all_cons, Bool.and_eq_true] at hall
    unfold intsOf at hints
    cases hpy : pyInt kv.2 with
    | none => rw [hpy] at hints; simp at hints
    | some m =>
      rw [hpy] at hints
      cases hrest : intsOf rest with
      | none => rw [hrest] at hints; simp at hints
      | some ms =>
        rw [hrest] at hints
        simp only [Option.some.injEq] at hints
        subst hints
        intro n hn
        rcases List.mem_cons.mp hn with h | h
        · subst h; exact leafOk_nonneg kv.2 n hall.1 hpy
        · exact ih ms hall.2 hrest n h

theorem sum_values_jobj (kvs : List (String × JVal)) :
    sum_values (.jobj kvs) =
      (match intsOf kvs with | some ns => ns.sum | none => (0 : Int)) := rfl

theorem sum_values_nonneg (d : JVal) (hok : dictOk d = true) :
    0 ≤ sum_values d := by
  cases d with
  | jobj kvs =>
    rw [sum_values_jobj]
    split
    · rename_i ns hints
      exact List.sum_nonneg (fun n hn => intsOf_nonneg kvs ns hok hints n hn)
    · exact le_refl (0 : Int)
  | jnum n => exact le_refl (0 : Int)
  | jstr s => exact le_refl (0 : Int)
  | jbool b => exact le_refl (0 : Int)
  | jnull => exact le_refl (0 : Int)
  | jarr l => exact le_refl (0 : Int)

/-- C8 counterexample document: a well-formed statistics document
whose `minecraft:jump` counter is -3. -/
def negativeDoc : JVal :=
  .jobj [("stats", .jobj [("minecraft:custom",
    .jobj [("minecraft:jump", .jnum (-3))])])]

/-- C8 counterexample: extraction produces a record with a negative
`jumps` field from a document carrying a negative counter, so the
claimed unconditional non-negativity fails. -/
theorem negative_counter_extracted :
    (extractPlayer "u" "u" negativeDoc).map Player.jumps = some (-3) := rfl

/-- C8 (amended): provided every counter value the extractor consumes
from the document is non-negative where it coerces to an integer at
all (true of real game statistics), every extracted record has
non-negative blocksMined, mobsKilled, deaths, jumps and playTicks; the
code itself never clamps, so a negative counter in the source document
flows straight into the record. -/
theorem extraction_fields_nonneg (uuid nm : String) (doc : JVal) (p : Player)
    (hok : countersOk doc = true) (hp : extractPlayer uuid nm doc = some p) :
    0 ≤ p.total_blocks ∧ 0 ≤ p.total_killed ∧ 0 ≤ p.deaths ∧
    0 ≤ p.jumps ∧ 0 ≤ p.ticks := by
  unfold extractPlayer at hp
  unfold countersOk at hok
  cases h1 : pyGet doc "stats" (.jobj []) with
  | none => rw [h1] at hp; exact Option.noConfusion hp
  | some s =>
    rw [h1] at hp hok
    dsimp only [Option.bind] at hp hok
    cases h2 : pyGet s "minecraft:mined" (.jobj []) with
    | none => rw [h2] at hp; exact Option.noConfusion hp
    | some mR =>
      rw [h2] at hp hok
      dsimp only [Option.bind] at hp hok
      cases h3 : pyGet s "minecraft:killed" (.jobj []) with
      | none => rw [h3] at hp; exact Option.noConfusion hp
      | some kR =>
        rw [h3] at hp hok
        dsimp only [Option.bind] at hp hok
        cases h4 : pyGet s "minecraft:custom" (.jobj []) with
        | none => rw [h4] at hp; exact Option.noConfusion hp
        | some cR =>
          rw [h4] at hp hok
          dsimp only [Option.bind] at hp
          dsimp only [Option.map_some', Option.getD_some] at hok
          simp only [Bool.and_eq_true] at hok
          obtain ⟨⟨hmOk, hkOk⟩, hcOk⟩ := hok
          cases h5 : pyGet (pyOr cR (.jobj [])) "minecraft:mob_kills" (.jnum 0) with
          | none => rw [h5] at hp; exact Option.noConfusion hp
          | some mkRaw =>
            rw [h5] at hp
            dsimp only [Option.bind] at hp
            cases h6 : pyInt mkRaw with
            | none => rw [h6] at hp; exact Option.noConfusion hp
            | some mkInt =>
              rw [h6] at hp
              dsimp only [Option.bind] at hp
              cases h7 : pyGet (pyOr cR (.jobj [])) "minecraft:deaths" (.jnum 0) with
              | none => rw [h7] at hp; exact Option.noConfusion hp
              | some deathsRaw =>
                rw [h7] at hp
                dsimp only [Option.bind] at hp
                cases h8 : pyInt deathsRaw with
                | none => rw [h8] at hp; exact Option.noConfusion hp
                | some deaths =>
                  rw [h8] at hp
                  dsimp only [Option.bind] at hp
                  cases h9 : pyGet (pyOr cR (.jobj [])) "minecraft:jump" (.jnum 0) with
                  | none => rw [h9] at hp; exact Option.noConfusion hp
                  | some jumpsRaw =>
                    rw [h9] at hp
                    dsimp only [Option.bind] at hp
                    cases h10 : pyInt jumpsRaw with
                    | none => rw [h10] at hp; exact Option.noConfusion hp
                    | some jumps =>
                      rw [h10] at hp
                      dsimp only [Option.bind] at hp
                      cases h11 : pyGet (pyOr cR (.jobj [])) "minecraft:play_time" (.jnum 0) with
                      | none => rw [h11] at hp; exact Option.noConfusion hp
                      | some ticksRaw =>
                        rw [h11] at hp
                        dsimp only [Option.bind] at hp
                        cases h12 : pyInt ticksRaw with
                        | none => rw [h12] at hp; exact Option.noConfusion hp
                        | some ticks =>
                          rw [h12] at hp
                          dsimp only [Option.bind] at hp
                          injection hp with hp2
                          subst hp2
                          refine ⟨sum_values_nonneg _ hmOk, ?_,
                            leafOk_nonneg _ _ (dictOk_leafOk _ _ _ hcOk h7) h8,
                            leafOk_nonneg _ _ (dictOk_leafOk _ _ _ hcOk h9) h10,
                            leafOk_nonneg _ _ (dictOk_leafOk _ _ _ hcOk h11) h12⟩
                          have hsv := sum_values_nonneg (pyOr kR (.jobj [])) hkOk
                          have hmk := leafOk_nonneg mkRaw mkInt (dictOk_leafOk _ _ _ hcOk h5) h6
                          show 0 ≤ sum_values (pyOr kR (.jobj [])) + mkInt
                          omega

/-- C8 witness document: plain non-negative counters. -/
def nonnegDoc : JVal :=
  .jobj [("stats", .jobj
    [("minecraft:mined", .jobj [("minecraft:stone", .jnum 4)]),
     ("minecraft:custom", .jobj
       [("minecraft:jump", .jnum 3), ("minecraft:play_time", .jnum 2400)])])]

/-- The record extracted from `nonnegDoc`. -/
def nonnegPlayer : Player :=
  { uuid := "u", name := "steve", total_blocks := 4, total_killed := 0,
    deaths := 0, jumps := 3, ticks := 2400, time_txt := ticks_to_time 2400,
    extras := [] }

theorem extraction_fields_nonneg_witness :
    0 ≤ nonnegPlayer.total_blocks ∧ 0 ≤ nonnegPlayer.total_killed ∧
    0 ≤ nonnegPlayer.deaths ∧ 0 ≤ nonnegPlayer.jumps ∧ 0 ≤ nonnegPlayer.ticks :=
  extraction_fields_nonneg "u" "steve" nonnegDoc nonnegPlayer (by decide) (by rfl)

/-- A template decomposed into literal text and placeholder tokens
(a token `{NAME}` is stored by its name). -/
inductive Seg where
  | lit : List Char → Seg
  | tok : List Char → Seg

/-- The literal text of a token: `{NAME}`. -/
def mkTok (n : List Char) : List Char := '{' :: (n ++ ['}'])

/-- The raw text of a segment. -/
def Seg.flat : Seg → List Char
  | .lit l => l
  | .tok n => mkTok n

/-- The raw template string of a segment list. -/
def flatSegs (segs : List Seg) : List Char := (segs.map Seg.flat).flatten

/-- Literal text opening no placeholder. -/
def litOk (l : List Char) : Bool := l.all (fun c => !(c == '{'))

/-- A well-formed token name: no brace on either side. -/
def nameOk (n : List Char) : Bool := n.all (fun c => !(c == '{') && !(c == '}'))

/-- Well-formed segment. -/
def wfSeg : Seg → Bool
  | .lit l => litOk l
  | .tok n => nameOk n

/-- Well-formed template decomposition. -/
def wfTemplate (segs : List Seg) : Bool := segs.all wfSeg

/-- Python `str.replace(pat, rep)`: replace every non-overlapping
occurrence left to right, never rescanning the replacement.  (The
source only ever replaces nonempty literal patterns; an empty pattern
is returned unchanged here.) -/
def replaceAll (pat rep : List Char) : List Char → List Char
  | [] => []
  | c :: cs =>
    if pat ≠ [] ∧ begins pat (c :: cs) = true then
      rep ++ replaceAll pat rep ((c :: cs).drop pat.length)
    else
      c :: replaceAll pat rep cs
termination_by s => s.length
decreasing_by
  · rename_i h
    have hlen : 1 ≤ pat.length := by
      cases pat with
      | nil => exact absurd rfl h.1
      | cons a as => exact Nat.succ_le_succ (Nat.zero_le _)
    simp only [List.length_drop, List.length_cons]
    omega
  · simp only [List.length_cons]
    omega

/-- Does `pat` occur anywhere in the string?  (Python `pat in s`.) -/
def containsSub (pat : List Char) : List Char → Bool
  | [] => begins pat []
  | c :: cs => begins pat (c :: cs) || containsSub pat cs

theorem replaceAll_nil (pat rep : List Char) : replaceAll pat rep [] = [] := by
  unfold replaceAll
  rfl

theorem replaceAll_cons (pat rep : List Char) (c : Char) (cs : List Char) :
    replaceAll pat rep (c :: cs) =
      if pat ≠ [] ∧ begins pat (c :: cs) = true then
        rep ++ replaceAll pat rep ((c :: cs).drop pat.length)
      else
        c :: replaceAll pat rep cs := by
  conv_lhs => rw [replaceAll]

theorem begins_append_self (l r : List Char) : begins l (l ++ r) = true := by
  induction l with
  | nil => rfl
  | cons a as ih => simp [begins, ih]

theorem begins_brace_head_false (t : List Char) (c : Char) (cs : List Char)
    (hc : c ≠ '{') : begins ('{' :: t) (c :: cs) = false := by
  have : ('{' == c) = false := by
    rw [beq_eq_false_iff_ne]
    exact fun h => hc h.symm
  simp [begins, this]

theorem litOk_no_brace (l : List Char) (h : litOk l = true) :
    ∀ c ∈ l, c ≠ '{' := by
  intro c hc
  have := List.all_eq_true.mp h c hc
  simpa using this

theorem nameOk_no_brace (n : List Char) (h : nameOk n = true) :
    ∀ c ∈ n, c ≠ '{' ∧ c ≠ '}' := by
  intro c hc
  have := List.all_eq_true.mp h c hc
  simp only [Bool.and_eq_true, Bool.not_eq_true'] at this
  exact ⟨by simpa using this.1, by simpa using this.2⟩

theorem replaceAll_append_clean (t rep l s : List Char)
    (hl : ∀ c ∈ l, c ≠ '{') :
    replaceAll ('{' :: t) rep (l ++ s) = l ++ replaceAll ('{' :: t) rep s := by
  induction l with
  | nil => rfl
  | cons c cs ih =>
    have hc : c ≠ '{' := hl c (List.mem_cons_self c cs)
    rw [List.cons_append, replaceAll_cons,
      if_neg (by simp [begins_brace_head_false t c _ hc]),
      ih (fun x hx => hl x (List.mem_cons_of_mem c hx)), List.cons_append]

theorem containsSub_append_clean (t l s : List Char)
    (hl : ∀ c ∈ l, c ≠ '{') :
    containsSub ('{' :: t) (l ++ s) = containsSub ('{' :: t) s := by
  induction l with
  | nil => rfl
  | cons c cs ih =>
    have hc : c ≠ '{' := hl c (List.mem_cons_self c cs)
    rw [List.cons_append]
    show (begins ('{' :: t) (c :: (cs ++ s)) || containsSub ('{' :: t) (cs ++ s)) =
      containsSub ('{' :: t) s
    rw [begins_brace_head_false t c _ hc, Bool.false_or,
      ih (fun x hx => hl x (List.mem_cons_of_mem c hx))]

theorem begins_token_mismatch (P : List Char) :
    ∀ (N rest : List Char),
    (∀ c ∈ P, c ≠ '{' ∧ c ≠ '}') → (∀ c ∈ N, c ≠ '}') → P ≠ N →
    begins (P ++ ['}']) (N ++ '}' :: rest) = false := by
  induction P with
  | nil =>
    intro N rest _ hN hne
    cases N with
    | nil => exact absurd rfl hne
    | cons b bs =>
      have hb : b ≠ '}' := hN b (List.mem_cons_self b bs)
      have : ('}' == b) = false := by
        rw [beq_eq_false_iff_ne]
        exact fun h => hb h.symm
      simp [begins, this]
  | cons a as ih =>
    intro N rest hP hN hne
    cases N with
    | nil =>
      have ha : a ≠ '}' := (hP a (List.mem_cons_self a as)).2
      have : (a == '}') = false := by rw [beq_eq_false_iff_ne]; exact ha
      simp [begins, this]
    | cons b bs =>
      by_cases hab : a = b
      · subst hab
        have hne2 : as ≠ bs := fun h => hne (by rw [h])
        show ((a == a) && begins (as ++ ['}']) (bs ++ '}' :: rest)) = false
        rw [beq_self_eq_true, Bool.true_and]
        exact ih bs rest (fun c hc => hP c (List.mem_cons_of_mem a hc))
          (fun c hc => hN c (List.mem_cons_of_mem a hc)) hne2
      · have : (a == b) = false := by rw [beq_eq_false_iff_ne]; exact hab
        show ((a == b) && begins (as ++ ['}']) (bs ++ '}' :: rest)) = false
        rw [this, Bool.false_and]

/-- Substitute one (token, value) pair at the segment level. -/
def substTok (P rep : List Char) : Seg → Seg
  | .lit l => .lit l
  | .tok n => if n = P then .lit rep else .tok n

theorem flatSegs_cons (sg : Seg) (rest : List Seg) :
    flatSegs (sg :: rest) = sg.flat ++ flatSegs rest := by
  simp [flatSegs]

theorem replaceAll_flat (P rep : List Char) (segs : List Seg)
    (hP : nameOk P = true) (hwf : wfTemplate segs = true) :
    replaceAll (mkTok P) rep (flatSegs segs) =
      flatSegs (segs.map (substTok P rep)) := by
  induction segs with
  | nil => exact replaceAll_nil _ _
  | cons sg rest ih =>
    simp only [wfTemplate, List.all_cons, Bool.and_eq_true] at hwf
    obtain ⟨hsg, hrest⟩ := hwf
    have hrest2 : wfTemplate rest = true := hrest
    cases sg with
    | lit l =>
      rw [List.map_cons, flatSegs_cons, flatSegs_cons]
      show replaceAll (mkTok P) rep (l ++ flatSegs rest) =
        (Seg.lit l).flat ++ flatSegs (rest.map (substTok P rep))
      have hstep : replaceAll (mkTok P) rep (l ++ flatSegs rest) =
          l ++ replaceAll (mkTok P) rep (flatSegs rest) :=
        replaceAll_append_clean (P ++ ['}']) rep l (flatSegs rest)
          (litOk_no_brace l hsg)
      rw [hstep, ih hrest2]
      rfl
    | tok N =>
      have hN : nameOk N = true := hsg
      rw [List.map_cons, flatSegs_cons, flatSegs_cons]
      by_cases hNP : N = P
      · subst hNP
        show replaceAll (mkTok N) rep (mkTok N ++ flatSegs rest) =
          (substTok N rep (Seg.tok N)).flat ++ flatSegs (rest.map (substTok N rep))
        have hsplit : mkTok N ++ flatSegs rest =
            '{' :: ((N ++ ['}']) ++ flatSegs rest) := by
          simp [mkTok]
        have hcond : mkTok N ≠ [] ∧
            begins (mkTok N) ('{' :: ((N ++ ['}']) ++ flatSegs rest)) = true := by
          refine ⟨by simp [mkTok], ?_⟩
          rw [← hsplit]
          exact begins_append_self _ _
        have hdrop : ('{' :: ((N ++ ['}']) ++ flatSegs rest)).drop (mkTok N).length =
            flatSegs rest := by
          rw [← hsplit]
          exact List.drop_left _ _
        rw [hsplit, replaceAll_cons, if_pos hcond, hdrop, ih hrest2]
        simp [substTok, Seg.flat]
      · show replaceAll (mkTok P) rep (mkTok N ++ flatSegs rest) =
          (substTok P rep (Seg.tok N)).flat ++ flatSegs (rest.map (substTok P rep))
        have hsplit : mkTok N ++ flatSegs rest =
            '{' :: (N ++ ('}' :: flatSegs rest)) := by
          simp [mkTok]
        have hmis : begins (P ++ ['}']) (N ++ '}' :: flatSegs rest) = false :=
          begins_token_mismatch P N (flatSegs rest)
            (nameOk_no_brace P hP)
            (fun c hc => ((nameOk_no_brace N hN) c hc).2)
            (fun h => hNP h.symm)
        have hbeg : begins (mkTok P) ('{' :: (N ++ ('}' :: flatSegs rest))) = false := by
          show (('{' == '{') && begins (P ++ ['}']) (N ++ '}' :: flatSegs rest)) = false
          rw [hmis, Bool.and_false]
        rw [hsplit, replaceAll_cons, if_neg (by simp [hbeg])]
        have hwalk := replaceAll_append_clean (P ++ ['}']) rep N ('}' :: flatSegs rest)
          (fun c hc => ((nameOk_no_brace N hN) c hc).1)
        rw [show mkTok P = '{' :: (P ++ ['}']) from rfl, hwalk]
        have hclose : begins ('{' :: (P ++ ['}'])) ('}' :: flatSegs rest) = false :=
          begins_brace_head_false _ _ _ (by decide)
        rw [replaceAll_cons, if_neg (by simp [hclose])]
        rw [show replaceAll ('{' :: (P ++ ['}'])) rep (flatSegs rest) =
          replaceAll (mkTok P) rep (flatSegs rest) from rfl, ih hrest2]
        simp only [substTok, if_neg hNP, Seg.flat, mkTok]
        simp

theorem replaceAll_of_not_contains (pat rep s : List Char)
    (h : containsSub pat s = false) : replaceAll pat rep s = s := by
  induction s with
  | nil => exact replaceAll_nil _ _
  | cons c cs ih =>
    have hsplit : (begins pat (c :: cs) || containsSub pat cs) = false := h
    rw [Bool.or_eq_false_iff] at hsplit
    rw [replaceAll_cons, if_neg (by simp [hsplit.1]), ih hsplit.2]

theorem containsSub_flat_double_brace (t : List Char) (segs : List Seg)
    (hwf : wfTemplate segs = true) :
    containsSub ('{' :: '{' :: t) (flatSegs segs) = false := by
  induction segs with
  | nil => rfl
  | cons sg rest ih =>
    simp only [wfTemplate, List.all_cons, Bool.and_eq_true] at hwf
    obtain ⟨hsg, hrest⟩ := hwf
    have hrest2 : wfTemplate rest = true := hrest
    cases sg with
    | lit l =>
      rw [flatSegs_cons]
      show containsSub ('{' :: '{' :: t) (l ++ flatSegs rest) = false
      rw [containsSub_append_clean ('{' :: t) l (flatSegs rest) (litOk_no_brace l hsg)]
      exact ih hrest2
    | tok N =>
      have hN : nameOk N = true := hsg
      have hsplit : (Seg.tok N).flat ++ flatSegs rest =
          '{' :: (N ++ ('}' :: flatSegs rest)) := by
        simp [Seg.flat, mkTok]
      rw [flatSegs_cons, hsplit]
      have hbeg : begins ('{' :: '{' :: t) ('{' :: (N ++ ('}' :: flatSegs rest))) = false := by
        show (('{' == '{') && begins ('{' :: t) (N ++ '}' :: flatSegs rest)) = false
        cases N with
        | nil =>
          rw [List.nil_append]
          rw [begins_brace_head_false t '}' _ (by decide)]
          rfl
        | cons b bs =>
          have hb : b ≠ '{' := ((nameOk_no_brace _ hN) b (List.mem_cons_self b bs)).1
          rw [List.cons_append, begins_brace_head_false t b _ hb]
          rfl
      show (begins ('{' :: '{' :: t) ('{' :: (N ++ ('}' :: flatSegs rest))) ||
        containsSub ('{' :: '{' :: t) (N ++ ('}' :: flatSegs rest))) = false
      rw [hbeg, Bool.false_or,
        containsSub_append_clean ('{' :: t) N _ (fun c hc => ((nameOk_no_brace N hN) c hc).1)]
      show (begins ('{' :: '{' :: t) ('}' :: flatSegs rest) ||
        containsSub ('{' :: '{' :: t) (flatSegs rest)) = false
      rw [begins_brace_head_false _ '}' _ (by decide), Bool.false_or]
      exact ih hrest2

theorem wfTemplate_map_subst (P rep : List Char) (segs : List Seg)
    (hrep : litOk rep = true) (hwf : wfTemplate segs = true) :
    wfTemplate (segs.map (substTok P rep)) = true := by
  induction segs with
  | nil => rfl
  | cons sg rest ih =>
    simp only [wfTemplate, List.all_cons, Bool.and_eq_true] at hwf
    obtain ⟨hsg, hrest⟩ := hwf
    have htail : (rest.map (substTok P rep)).all wfSeg = true := ih hrest
    show (wfSeg (substTok P rep sg) && (rest.map (substTok P rep)).all wfSeg) = true
    rw [htail, Bool.and_true]
    cases sg with
    | lit l => exact hsg
    | tok n =>
      by_cases hnp : n = P
      · simp [substTok, hnp, wfSeg, hrep]
      · simp only [substTok, if_neg hnp]
        exact hsg

/-- The computed values the source substitutes (serialized player
list, timestamp, aggregate fields). -/
structure RenderVals where
  players_data : List Char
  update_time : List Char
  player_count : List Char
  total_time : List Char
  total_blocks : List Char
  total_distance : List Char
  total_kills : List Char
  avg_time : List Char

/-- The recognized placeholder tokens with their values, in the
source's replacement order (lines 378–385). -/
def renderPairs (v : RenderVals) : List (List Char × List Char) :=
  [("PLAYERS_DATA".data, v.players_data),
   ("UPDATE_TIME".data, v.update_time),
   ("PLAYER_COUNT".data, v.player_count),
   ("TOTAL_TIME".data, v.total_time),
   ("TOTAL_BLOCKS".data, v.total_blocks),
   ("TOTAL_DISTANCE".data, v.total_distance),
   ("TOTAL_KILLS".data, v.total_kills),
   ("AVG_TIME".data, v.avg_time)]

/-- The chain of `html.replace('{NAME}', value)` calls. -/
def renderChain (pairs : List (List Char × List Char)) (t : List Char) : List Char :=
  pairs.foldl (fun acc kv => replaceAll (mkTok kv.1) kv.2 acc) t

/-- The source's pre-pass: if `{PLAYERS_DATA}` is absent it rewrites
a doubled `{{PLAYERS_DATA}}` into `{PLAYERS_DATA}`. -/
def fixupTemplate (t : List Char) : List Char :=
  if containsSub (mkTok "PLAYERS_DATA".data) t = true then t
  else replaceAll ('{' :: (mkTok "PLAYERS_DATA".data ++ ['}']))
    (mkTok "PLAYERS_DATA".data) t

/-- The renderer: fixup pass, then the replacement chain. -/
def render (v : RenderVals) (t : List Char) : List Char :=
  renderChain (renderPairs v) (fixupTemplate t)

/-- Apply every (token, value) pair to one segment, in order. -/
def applyPairs (pairs : List (List Char × List Char)) (seg : Seg) : Seg :=
  pairs.foldl (fun sg kv => substTok kv.1 kv.2 sg) seg

theorem renderChain_flat (pairs : List (List Char × List Char)) (segs : List Seg)
    (hvals : ∀ kv ∈ pairs, nameOk kv.1 = true ∧ litOk kv.2 = true)
    (hwf : wfTemplate segs = true) :
    renderChain pairs (flatSegs segs) = flatSegs (segs.map (applyPairs pairs)) := by
  induction pairs generalizing segs with
  | nil =>
    show flatSegs segs = flatSegs (segs.map (fun seg => seg))
    rw [List.map_id']
  | cons kv pairs ih =>
    have hkv := hvals kv (List.mem_cons_self kv pairs)
    have htl : ∀ x ∈ pairs, nameOk x.1 = true ∧ litOk x.2 = true :=
      fun x hx => hvals x (List.mem_cons_of_mem kv hx)
    show renderChain pairs (replaceAll (mkTok kv.1) kv.2 (flatSegs segs)) =
      flatSegs (segs.map (applyPairs (kv :: pairs)))
    rw [replaceAll_flat kv.1 kv.2 segs hkv.1 hwf]
    rw [ih (segs.map (substTok kv.1 kv.2)) htl
      (wfTemplate_map_subst kv.1 kv.2 segs hkv.2 hwf)]
    rw [List.map_map]
    rfl

theorem fixupTemplate_wf (segs : List Seg) (hwf : wfTemplate segs = true) :
    fixupTemplate (flatSegs segs) = flatSegs segs := by
  unfold fixupTemplate
  split_ifs with h
  · rfl
  · apply replaceAll_of_not_contains
    have hform : '{' :: (mkTok "PLAYERS_DATA".data ++ ['}']) =
        '{' :: '{' :: (("PLAYERS_DATA".data ++ ['}']) ++ ['}']) := by
      simp [mkTok]
    rw [hform]
    exact containsSub_flat_double_brace _ segs hwf

/-- C9: for every template given as well-formed literal/token segments
(literals and token names free of braces) and every set of computed
values that open no placeholder of their own (no `{` in a value), the
renderer maps each segment independently: every occurrence of each
recognized token — including a token occurring twice — becomes its
value, and every unrecognized token and every literal chunk is left
unchanged at its position; rendering is total, so no error is raised. -/
theorem render_substitutes_each_token (segs : List Seg) (v : RenderVals)
    (hwf : wfTemplate segs = true)
    (hvals : ∀ kv ∈ renderPairs v, litOk kv.2 = true) :
    render v (flatSegs segs) = flatSegs (segs.map (applyPairs (renderPairs v))) := by
  unfold render
  rw [fixupTemplate_wf segs hwf]
  apply renderChain_flat
  · intro kv hkv
    refine ⟨?_, hvals kv hkv⟩
    simp only [renderPairs, List.mem_cons, List.not_mem_nil, or_false] at hkv
    rcases hkv with h | h | h | h | h | h | h | h <;> (subst h; dsimp only []; decide)
  · exact hwf

/-- C9 witness template: literal text around a recognized token
appearing twice and an unrecognized token `{MYSTERY}`. -/
def demoSegs : List Seg :=
  [.lit "A ".data, .tok "UPDATE_TIME".data, .lit " B ".data,
   .tok "MYSTERY".data, .lit " C ".data, .tok "UPDATE_TIME".data]

/-- C9 witness values. -/
def demoVals : RenderVals :=
  { players_data := "[]".data, update_time := "now".data,
    player_count := "7".data, total_time := "1h 0m".data,
    total_blocks := "3".data, total_distance := "1".data,
    total_kills := "2".data, avg_time := "0h 9m".data }

theorem render_substitutes_each_token_witness :
    render demoVals (flatSegs demoSegs) =
      flatSegs (demoSegs.map (applyPairs (renderPairs demoVals))) :=
  render_substitutes_each_token demoSegs demoVals (by decide) (by decide)
